import Mathlib

/-!
Verification of the quantitative engine of the GREEKERS repository
(`FinancialService`): Black-Scholes-Merton pricing with an
Abramowitz-Stegun erf approximation, historical statistics, synthetic
option-chain generation, portfolio Greeks, Value-at-Risk, gamma hedging
and P&L scenarios.

JavaScript `number` arithmetic is embedded as exact real arithmetic
(`ℝ`); `Infinity` (returned by `bsm` for `d1`/`d2` in the degenerate
branch) is embedded by using `EReal` for those two fields.  List
operations (`map`, `filter`, `reduce`, stable `sort`) are embedded as
the corresponding `List` operations; `Array.prototype.sort` with the
ascending comparator is embedded as `List.insertionSort`, which is
stable and sorts ascending.
-/

noncomputable section

/-- The TS enum `OptionType` with members `Call` and `Put`. -/
inductive OptionType where
  | Call
  | Put
  deriving DecidableEq

/-- The TS `Greeks` record: `{delta, gamma, vega, theta, rho}`. -/
structure Greeks where
  delta : ℝ
  gamma : ℝ
  vega : ℝ
  theta : ℝ
  rho : ℝ

/-- Return type of `FinancialService.bsm`: `{price, greeks, d1, d2}`.
`d1`/`d2` are `EReal` because the degenerate branch returns `Infinity`. -/
structure BSMResult where
  price : ℝ
  greeks : Greeks
  d1 : EReal
  d2 : EReal

/-- The Abramowitz-Stegun polynomial part of `erf`, including the final
factor `t`, exactly as in the source:
`(((((a5*t + a4)*t) + a3)*t + a2)*t + a1)*t` with
a1 = 0.254829592, a2 = -0.284496736, a3 = 1.421413741,
a4 = -1.453152027, a5 = 1.061405429. -/
def erfPoly (t : ℝ) : ℝ :=
  ((((((1.061405429 : ℝ) * t + -1.453152027) * t) + 1.421413741) * t
      + -0.284496736) * t + 0.254829592) * t

/-- `FinancialService.erf`: sign = 1 for x ≥ 0 else -1, x := |x|,
t = 1/(1 + p·x) with p = 0.3275911,
y = 1 - erfPoly(t)·exp(-x²), result = sign·y. -/
def erf (x : ℝ) : ℝ :=
  let sign : ℝ := if 0 ≤ x then 1 else -1
  let ax : ℝ := |x|
  let t : ℝ := 1 / (1 + 0.3275911 * ax)
  sign * (1 - erfPoly t * Real.exp (-(ax * ax)))

/-- `FinancialService.normCdf`: `0.5 * (1 + erf (x / √2))`. -/
def normCdf (x : ℝ) : ℝ := 0.5 * (1 + erf (x / Real.sqrt 2))

/-- `FinancialService.normPdf`: `(1/√(2π)) · exp(-0.5·x²)`. -/
def normPdf (x : ℝ) : ℝ :=
  (1 / Real.sqrt (2 * Real.pi)) * Real.exp (-0.5 * x * x)

/-- `d1` of the analytic BSM branch:
`(ln(S/K) + (r + 0.5σ²)T) / (σ√T)`. -/
def d1Of (S K T sigma r : ℝ) : ℝ :=
  (Real.log (S / K) + (r + 0.5 * sigma * sigma) * T) / (sigma * Real.sqrt T)

/-- `d2 = d1 - σ√T` of the analytic BSM branch. -/
def d2Of (S K T sigma r : ℝ) : ℝ :=
  d1Of S K T sigma r - sigma * Real.sqrt T

/-- `FinancialService.bsm`.  The degenerate branch (`T ≤ 0 ∨ σ ≤ 0`)
returns intrinsic value, a sign-based delta, zero remaining Greeks and
`d1 = d2 = ∞`; the analytic branch is the Black-Scholes-Merton formula
with `normCdf`/`normPdf` as above. -/
def bsm (S K T sigma r : ℝ) (optionType : OptionType) : BSMResult :=
  if T ≤ 0 ∨ sigma ≤ 0 then
    { price :=
        match optionType with
        | .Call => max 0 (S - K)
        | .Put => max 0 (K - S)
      greeks :=
        { delta :=
            match optionType with
            | .Call => if S > K then 1 else 0
            | .Put => if S < K then -1 else 0
          gamma := 0, vega := 0, theta := 0, rho := 0 }
      d1 := ⊤
      d2 := ⊤ }
  else
    let d1 := d1Of S K T sigma r
    let d2 := d2Of S K T sigma r
    let N_d1 := normCdf d1
    let N_d2 := normCdf d2
    let N_minus_d1 := normCdf (-d1)
    let N_minus_d2 := normCdf (-d2)
    let N_prime_d1 := normPdf d1
    let price :=
      match optionType with
      | .Call => S * N_d1 - K * Real.exp (-r * T) * N_d2
      | .Put => K * Real.exp (-r * T) * N_minus_d2 - S * N_minus_d1
    let delta :=
      match optionType with
      | .Call => N_d1
      | .Put => N_d1 - 1
    let theta :=
      match optionType with
      | .Call => -(S * N_prime_d1 * sigma) / (2 * Real.sqrt T)
          - r * K * Real.exp (-r * T) * N_d2
      | .Put => -(S * N_prime_d1 * sigma) / (2 * Real.sqrt T)
          + r * K * Real.exp (-r * T) * N_minus_d2
    let gamma := N_prime_d1 / (S * sigma * Real.sqrt T)
    let vega := S * N_prime_d1 * Real.sqrt T
    let rho :=
      match optionType with
      | .Call => K * T * Real.exp (-r * T) * N_d2
      | .Put => -(K * T * Real.exp (-r * T) * N_minus_d2)
    { price := price
      greeks := { delta := delta, gamma := gamma, vega := vega, theta := theta, rho := rho }
      d1 := (d1 : EReal)
      d2 := (d2 : EReal) }

/-- JavaScript `Math.round`: round half toward `+∞`, i.e. `⌊x + 1/2⌋`. -/
def jsRound (x : ℝ) : ℤ := ⌊x + 1 / 2⌋

lemma bsm_degen (S K T sigma r : ℝ) (ty : OptionType) (h : T ≤ 0 ∨ sigma ≤ 0) :
    bsm S K T sigma r ty =
      { price := if ty = OptionType.Call then max 0 (S - K) else max 0 (K - S)
        greeks :=
          { delta := if ty = OptionType.Call then (if S > K then 1 else 0)
              else (if S < K then -1 else 0)
            gamma := 0, vega := 0, theta := 0, rho := 0 }
        d1 := ⊤
        d2 := ⊤ } := by
  rw [bsm.eq_def, if_pos h]
  cases ty <;> simp

lemma bsm_call_analytic (S K T sigma r : ℝ) (h : ¬(T ≤ 0 ∨ sigma ≤ 0)) :
    bsm S K T sigma r OptionType.Call =
      { price := S * normCdf (d1Of S K T sigma r)
          - K * Real.exp (-r * T) * normCdf (d2Of S K T sigma r)
        greeks :=
          { delta := normCdf (d1Of S K T sigma r)
            gamma := normPdf (d1Of S K T sigma r) / (S * sigma * Real.sqrt T)
            vega := S * normPdf (d1Of S K T sigma r) * Real.sqrt T
            theta := -(S * normPdf (d1Of S K T sigma r) * sigma) / (2 * Real.sqrt T)
              - r * K * Real.exp (-r * T) * normCdf (d2Of S K T sigma r)
            rho := K * T * Real.exp (-r * T) * normCdf (d2Of S K T sigma r) }
        d1 := (d1Of S K T sigma r : EReal)
        d2 := (d2Of S K T sigma r : EReal) } := by
  rw [bsm.eq_def, if_neg h]

lemma bsm_put_analytic (S K T sigma r : ℝ) (h : ¬(T ≤ 0 ∨ sigma ≤ 0)) :
    bsm S K T sigma r OptionType.Put =
      { price := K * Real.exp (-r * T) * normCdf (-(d2Of S K T sigma r))
          - S * normCdf (-(d1Of S K T sigma r))
        greeks :=
          { delta := normCdf (d1Of S K T sigma r) - 1
            gamma := normPdf (d1Of S K T sigma r) / (S * sigma * Real.sqrt T)
            vega := S * normPdf (d1Of S K T sigma r) * Real.sqrt T
            theta := -(S * normPdf (d1Of S K T sigma r) * sigma) / (2 * Real.sqrt T)
              + r * K * Real.exp (-r * T) * normCdf (-(d2Of S K T sigma r))
            rho := -(K * T * Real.exp (-r * T) * normCdf (-(d2Of S K T sigma r))) }
        d1 := (d1Of S K T sigma r : EReal)
        d2 := (d2Of S K T sigma r : EReal) } := by
  rw [bsm.eq_def, if_neg h]

/-- C2: for `T ≤ 0` or `σ ≤ 0`, `bsm` returns the intrinsic value
(`max(0,S−K)` for Call, `max(0,K−S)` for Put), delta 1/0/−1 by
moneyness sign, zero gamma/vega/theta/rho, and `d1 = d2 = +∞`. -/
theorem bsm_degenerate_case (S K T sigma r : ℝ) (ty : OptionType)
    (h : T ≤ 0 ∨ sigma ≤ 0) :
    bsm S K T sigma r ty =
      { price := if ty = OptionType.Call then max 0 (S - K) else max 0 (K - S)
        greeks :=
          { delta := if ty = OptionType.Call then (if S > K then 1 else 0)
              else (if S < K then -1 else 0)
            gamma := 0, vega := 0, theta := 0, rho := 0 }
        d1 := ⊤
        d2 := ⊤ } :=
  bsm_degen S K T sigma r ty h

theorem bsm_degenerate_case_witness :
    ((0 : ℝ) ≤ 0 ∨ (0.2 : ℝ) ≤ 0) ∧
    bsm 100 90 0 0.2 0.05 OptionType.Call =
      { price := 10
        greeks := { delta := 1, gamma := 0, vega := 0, theta := 0, rho := 0 }
        d1 := ⊤
        d2 := ⊤ } := by
  refine ⟨Or.inl le_rfl, ?_⟩
  rw [bsm_degenerate_case 100 90 0 0.2 0.05 OptionType.Call (Or.inl le_rfl)]
  norm_num

lemma erfPoly_nonneg {t : ℝ} (h0 : 0 ≤ t) (h1 : t ≤ 1) : 0 ≤ erfPoly t := by
  unfold erfPoly
  nlinarith [sq_nonneg t, sq_nonneg (t - 1), sq_nonneg (t * t - t),
    mul_nonneg h0 h0, mul_nonneg (mul_nonneg h0 h0) h0,
    sq_nonneg (t * t * t - t * t), mul_nonneg (mul_nonneg (mul_nonneg h0 h0) h0) h0]

lemma erfPoly_le {t : ℝ} (h0 : 0 ≤ t) (h1 : t ≤ 1) : erfPoly t ≤ 7 / 5 := by
  unfold erfPoly
  nlinarith [sq_nonneg t, sq_nonneg (t - 1), sq_nonneg (t * t - t),
    mul_nonneg h0 h0, mul_nonneg (mul_nonneg h0 h0) h0,
    mul_nonneg (mul_nonneg (mul_nonneg h0 h0) h0) h0,
    mul_nonneg (mul_nonneg (mul_nonneg (mul_nonneg h0 h0) h0) h0) h0,
    mul_nonneg (mul_nonneg h0 h0) (sub_nonneg.mpr h1),
    mul_nonneg (mul_nonneg (mul_nonneg h0 h0) h0) (sub_nonneg.mpr h1),
    mul_nonneg (mul_nonneg (mul_nonneg (mul_nonneg h0 h0) h0) h0) (sub_nonneg.mpr h1)]

lemma erfAux_bounds (x : ℝ) (hx : 0 ≤ x) :
    0 ≤ erfPoly (1 / (1 + 0.3275911 * x)) * Real.exp (-(x * x)) ∧
      erfPoly (1 / (1 + 0.3275911 * x)) * Real.exp (-(x * x)) ≤ 7 / 5 := by
  have hden : (1 : ℝ) ≤ 1 + 0.3275911 * x := by nlinarith
  have hdpos : (0 : ℝ) < 1 + 0.3275911 * x := by linarith
  have ht0 : 0 ≤ 1 / (1 + 0.3275911 * x) := by positivity
  have ht1 : 1 / (1 + 0.3275911 * x) ≤ 1 := by
    rw [div_le_one hdpos]; linarith
  have hexp0 : 0 ≤ Real.exp (-(x * x)) := (Real.exp_pos _).le
  have hexp1 : Real.exp (-(x * x)) ≤ 1 := by
    rw [Real.exp_le_one_iff]; nlinarith
  refine ⟨mul_nonneg (erfPoly_nonneg ht0 ht1) hexp0, ?_⟩
  calc erfPoly (1 / (1 + 0.3275911 * x)) * Real.exp (-(x * x))
      ≤ (7 / 5) * 1 := mul_le_mul (erfPoly_le ht0 ht1) hexp1 hexp0 (by norm_num)
    _ = 7 / 5 := by norm_num

lemma erf_le_one (x : ℝ) : erf x ≤ 1 := by
  unfold erf
  by_cases h : 0 ≤ x
  · rw [if_pos h, abs_of_nonneg h, one_mul]
    have := (erfAux_bounds x h).1
    linarith
  · push_neg at h
    rw [if_neg (not_le.mpr h), abs_of_neg h]
    have := (erfAux_bounds (-x) (by linarith)).2
    nlinarith

lemma neg_one_le_erf (x : ℝ) : -1 ≤ erf x := by
  unfold erf
  by_cases h : 0 ≤ x
  · rw [if_pos h, abs_of_nonneg h, one_mul]
    have := (erfAux_bounds x h).2
    linarith
  · push_neg at h
    rw [if_neg (not_le.mpr h), abs_of_neg h]
    have := (erfAux_bounds (-x) (by linarith)).1
    nlinarith

lemma normCdf_nonneg (x : ℝ) : 0 ≤ normCdf x := by
  unfold normCdf
  have := neg_one_le_erf (x / Real.sqrt 2)
  linarith

lemma normCdf_le_one (x : ℝ) : normCdf x ≤ 1 := by
  unfold normCdf
  have := erf_le_one (x / Real.sqrt 2)
  linarith

lemma normPdf_nonneg (x : ℝ) : 0 ≤ normPdf x := by
  unfold normPdf
  positivity

/-- C9: for every `S > 0`, `K > 0` and every `T`, `sigma`, `r` (covering
both the analytic and the degenerate branch of `bsm`), the Call delta
lies in `[0,1]`, the Put delta lies in `[-1,0]`, and gamma and vega are
nonnegative for both types. -/
theorem bsm_greek_bounds (S K T sigma r : ℝ) (hS : 0 < S) (hK : 0 < K) :
    (0 ≤ (bsm S K T sigma r OptionType.Call).greeks.delta ∧
        (bsm S K T sigma r OptionType.Call).greeks.delta ≤ 1) ∧
    (-1 ≤ (bsm S K T sigma r OptionType.Put).greeks.delta ∧
        (bsm S K T sigma r OptionType.Put).greeks.delta ≤ 0) ∧
    0 ≤ (bsm S K T sigma r OptionType.Call).greeks.gamma ∧
    0 ≤ (bsm S K T sigma r OptionType.Put).greeks.gamma ∧
    0 ≤ (bsm S K T sigma r OptionType.Call).greeks.vega ∧
    0 ≤ (bsm S K T sigma r OptionType.Put).greeks.vega := by
  by_cases h : T ≤ 0 ∨ sigma ≤ 0
  · rw [bsm_degen S K T sigma r OptionType.Call h,
      bsm_degen S K T sigma r OptionType.Put h]
    simp only [reduceCtorEq, if_true, if_false, reduceIte]
    constructor
    · constructor <;> split_ifs <;> norm_num
    refine ⟨?_, by norm_num, by norm_num, by norm_num, by norm_num⟩
    constructor <;> split_ifs <;> norm_num
  · rw [bsm_call_analytic S K T sigma r h, bsm_put_analytic S K T sigma r h]
    push_neg at h
    obtain ⟨hT, hsigma⟩ := h
    have hd1 := normCdf_nonneg (d1Of S K T sigma r)
    have hd1' := normCdf_le_one (d1Of S K T sigma r)
    have hpdf := normPdf_nonneg (d1Of S K T sigma r)
    have hsqrt : 0 ≤ Real.sqrt T := Real.sqrt_nonneg T
    refine ⟨⟨hd1, hd1'⟩, ⟨by simp; linarith, by simp; linarith⟩, ?_, ?_, ?_, ?_⟩ <;> simp
    · exact div_nonneg hpdf (by positivity)
    · exact div_nonneg hpdf (by positivity)
    · exact mul_nonneg (mul_nonneg hS.le hpdf) hsqrt
    · exact mul_nonneg (mul_nonneg hS.le hpdf) hsqrt

theorem bsm_greek_bounds_witness :
    (0 : ℝ) < 100 ∧ (0 : ℝ) < 90 ∧
    ((0 ≤ (bsm 100 90 1 0.2 0.05 OptionType.Call).greeks.delta ∧
        (bsm 100 90 1 0.2 0.05 OptionType.Call).greeks.delta ≤ 1) ∧
    (-1 ≤ (bsm 100 90 1 0.2 0.05 OptionType.Put).greeks.delta ∧
        (bsm 100 90 1 0.2 0.05 OptionType.Put).greeks.delta ≤ 0) ∧
    0 ≤ (bsm 100 90 1 0.2 0.05 OptionType.Call).greeks.gamma ∧
    0 ≤ (bsm 100 90 1 0.2 0.05 OptionType.Put).greeks.gamma ∧
    0 ≤ (bsm 100 90 1 0.2 0.05 OptionType.Call).greeks.vega ∧
    0 ≤ (bsm 100 90 1 0.2 0.05 OptionType.Put).greeks.vega) :=
  ⟨by norm_num, by norm_num,
    bsm_greek_bounds 100 90 1 0.2 0.05 (by norm_num) (by norm_num)⟩

lemma erf_neg_of_ne (x : ℝ) (hx : x ≠ 0) : erf (-x) = -erf x := by
  unfold erf
  rcases hx.lt_or_lt with h | h
  · rw [if_pos (by linarith : (0 : ℝ) ≤ -x), if_neg (by linarith : ¬(0 : ℝ) ≤ x), abs_neg]
    ring
  · rw [if_neg (by linarith : ¬(0 : ℝ) ≤ -x), if_pos (by linarith : (0 : ℝ) ≤ x), abs_neg]
    ring

/-- The approximate `erf` is not exactly zero at `0`: the five
coefficients sum to `0.999999999`, so `erf 0 = 1 - 0.999999999 = 10⁻⁹`. -/
lemma erf_zero_val : erf 0 = 1 / 10 ^ 9 := by
  unfold erf erfPoly
  norm_num

lemma normCdf_add_neg_of_ne (x : ℝ) (hx : x ≠ 0) : normCdf x + normCdf (-x) = 1 := by
  unfold normCdf
  have hs : Real.sqrt 2 ≠ 0 := by positivity
  have hd : x / Real.sqrt 2 ≠ 0 := div_ne_zero hx hs
  have hneg : -x / Real.sqrt 2 = -(x / Real.sqrt 2) := by ring
  rw [hneg, erf_neg_of_ne _ hd]
  ring

lemma normCdf_pair_bounds (x : ℝ) :
    0 ≤ normCdf x + normCdf (-x) - 1 ∧ normCdf x + normCdf (-x) - 1 ≤ 1 / 10 ^ 9 := by
  by_cases hx : x = 0
  · subst hx
    rw [show (-0 : ℝ) = 0 by norm_num]
    unfold normCdf
    rw [show (0 : ℝ) / Real.sqrt 2 = 0 by simp, erf_zero_val]
    norm_num
  · rw [normCdf_add_neg_of_ne x hx]
    norm_num

/-- C1 (amended): for `S, K, T, σ > 0` and any `r`, the Call price minus
the Put price differs from `S − K·e^(−rT)` by at most
`(S + K·e^(−rT))·10⁻⁹` — the parity is exact except when `d1 = 0` or
`d2 = 0`, where the approximate `erf 0 = 10⁻⁹` leaks in. -/
theorem put_call_parity_approx (S K T sigma r : ℝ)
    (hS : 0 < S) (hK : 0 < K) (hT : 0 < T) (hsigma : 0 < sigma) :
    |(bsm S K T sigma r OptionType.Call).price
        - (bsm S K T sigma r OptionType.Put).price
        - (S - K * Real.exp (-r * T))| ≤ (S + K * Real.exp (-r * T)) * (1 / 10 ^ 9) := by
  have h : ¬(T ≤ 0 ∨ sigma ≤ 0) := by push_neg; exact ⟨hT, hsigma⟩
  rw [bsm_call_analytic S K T sigma r h, bsm_put_analytic S K T sigma r h]
  dsimp only
  have h1 := normCdf_pair_bounds (d1Of S K T sigma r)
  have h2 := normCdf_pair_bounds (d2Of S K T sigma r)
  have hE : 0 < Real.exp (-r * T) := Real.exp_pos _
  have hKE : 0 < K * Real.exp (-r * T) := mul_pos hK hE
  rw [abs_le]
  constructor
  · nlinarith [mul_nonneg hS.le h1.1, mul_le_mul_of_nonneg_left h2.2 hKE.le,
      mul_nonneg hKE.le h2.1]
  · nlinarith [mul_le_mul_of_nonneg_left h1.2 hS.le, mul_nonneg hKE.le h2.1,
      mul_nonneg hS.le h1.1]

theorem put_call_parity_approx_witness :
    ((0 : ℝ) < 100 ∧ (0 : ℝ) < 90 ∧ (0 : ℝ) < 1 ∧ (0 : ℝ) < 0.2) ∧
    |(bsm 100 90 1 0.2 0.05 OptionType.Call).price
        - (bsm 100 90 1 0.2 0.05 OptionType.Put).price
        - (100 - 90 * Real.exp (-0.05 * 1))| ≤ (100 + 90 * Real.exp (-0.05 * 1)) * (1 / 10 ^ 9) :=
  ⟨⟨by norm_num, by norm_num, by norm_num, by norm_num⟩,
    put_call_parity_approx 100 90 1 0.2 0.05
      (by norm_num) (by norm_num) (by norm_num) (by norm_num)⟩

/-- C1 (counterexample): at `S = 10000`, `K = 10000·e^(1/2)`, `T = 1`,
`σ = 1`, `r = 0` the analytic branch has `d1 = 0`, and since the
approximate `erf 0 = 10⁻⁹`, the parity defect is `S·10⁻⁹ = 10⁻⁵`, which
exceeds the claimed `10⁻⁶` tolerance. -/
theorem put_call_parity_1e6_counterexample :
    ¬(|(bsm 10000 (10000 * Real.exp (1 / 2)) 1 1 0 OptionType.Call).price
        - (bsm 10000 (10000 * Real.exp (1 / 2)) 1 1 0 OptionType.Put).price
        - (10000 - 10000 * Real.exp (1 / 2) * Real.exp (-(0 : ℝ) * 1))| ≤ 1 / 10 ^ 6) := by
  have h : ¬((1 : ℝ) ≤ 0 ∨ (1 : ℝ) ≤ 0) := by norm_num
  have hlog : Real.log ((10000 : ℝ) / (10000 * Real.exp (1 / 2))) = -(1 / 2) := by
    rw [Real.log_div (by norm_num) (by positivity),
      Real.log_mul (by norm_num) (Real.exp_ne_zero _), Real.log_exp]
    ring
  have hd1 : d1Of 10000 (10000 * Real.exp (1 / 2)) 1 1 0 = 0 := by
    unfold d1Of
    rw [hlog, Real.sqrt_one]
    norm_num
  have hd2 : d2Of 10000 (10000 * Real.exp (1 / 2)) 1 1 0 = -1 := by
    unfold d2Of
    rw [hd1, Real.sqrt_one]
    norm_num
  have hEr : Real.exp (-(0 : ℝ) * 1) = 1 := by
    norm_num
  have hN0 : normCdf 0 = 0.5 * (1 + 1 / 10 ^ 9) := by
    unfold normCdf
    rw [zero_div, erf_zero_val]
  have hsum : normCdf 1 + normCdf (-1) = 1 := normCdf_add_neg_of_ne 1 (by norm_num)
  have hX : (bsm 10000 (10000 * Real.exp (1 / 2)) 1 1 0 OptionType.Call).price
      - (bsm 10000 (10000 * Real.exp (1 / 2)) 1 1 0 OptionType.Put).price
      - (10000 - 10000 * Real.exp (1 / 2) * Real.exp (-(0 : ℝ) * 1)) = 1 / 10 ^ 5 := by
    rw [bsm_call_analytic 10000 (10000 * Real.exp (1 / 2)) 1 1 0 h,
      bsm_put_analytic 10000 (10000 * Real.exp (1 / 2)) 1 1 0 h]
    dsimp only
    rw [hd1, hd2, hEr, neg_zero, neg_neg, hN0]
    linear_combination (-(10000 : ℝ) * Real.exp (1 / 2)) * hsum
  rw [hX, abs_of_pos (by norm_num : (0 : ℝ) < 1 / 10 ^ 5)]
  norm_num

/-- Arithmetic mean `Σr / n`, the JS `returns.reduce((s,r)=>s+r,0)/n`
pattern shared by `calculateSummaryStatistics` and
`calculatePortfolioVaR`. -/
def meanOf (rs : List ℝ) : ℝ := rs.sum / rs.length

/-- Sample standard deviation `√(Σ(r−mean)² / (n−1))`, the JS
`Math.sqrt(returns.reduce((s,r)=>s+Math.pow(r-mean,2),0)/(n-1))`
pattern shared by `calculateSummaryStatistics` and
`calculatePortfolioVaR`. -/
def sampleStd (rs : List ℝ) : ℝ :=
  Real.sqrt ((rs.map fun r => (r - meanOf rs) ^ 2).sum / ((rs.length : ℝ) - 1))

/-- `prices.slice(1).map((p, i) => Math.log(p / prices[i]))`: log-return
of each consecutive pair. -/
def dailyLogReturns (prices : List ℝ) : List ℝ :=
  (prices.tail.zip prices).map fun pr => Real.log (pr.1 / pr.2)

/-- The TS `SummaryStats` record. -/
structure SummaryStats where
  dailyLogReturns : List ℝ
  annualizedVolatility : ℝ
  skewness : ℝ
  kurtosis : ℝ

/-- `FinancialService.calculateSummaryStatistics`.  Note: the skewness
and kurtosis divisions `m3 / stdDev³` and `m4 / stdDev⁴` are NOT guarded
against `stdDev = 0`; in this real embedding `x / 0 = 0`, whereas the
JS source produces `NaN` there. -/
def calculateSummaryStatistics (prices : List ℝ) : SummaryStats :=
  let returns := dailyLogReturns prices
  let n := returns.length
  if n < 2 then
    { dailyLogReturns := [], annualizedVolatility := 0, skewness := 0, kurtosis := 0 }
  else
    let mean := meanOf returns
    let stdDev := sampleStd returns
    let annualizedVolatility := stdDev * Real.sqrt 252
    let m3 := (returns.map fun r => (r - mean) ^ 3).sum / (n : ℝ)
    let skewness := m3 / stdDev ^ 3
    let m4 := (returns.map fun r => (r - mean) ^ 4).sum / (n : ℝ)
    let kurtosis := m4 / stdDev ^ 4 - 3
    { dailyLogReturns := returns
      annualizedVolatility := annualizedVolatility
      skewness := skewness
      kurtosis := kurtosis }

/-- C5 (code evidence): on the constant series `[100, 100, 100]` the
return list is `[0, 0]` — so the `n < 2` guard is NOT taken — and the
sample standard deviation is `0`, so the unguarded skewness/kurtosis
divisions divide by zero (`NaN` in the JS source).  The annualized
volatility is `0·√252 = 0` as claimed. -/
theorem constant_series_stats_divide_by_zero :
    (dailyLogReturns [100, 100, 100]).length = 2 ∧
    sampleStd (dailyLogReturns [100, 100, 100]) = 0 ∧
    (calculateSummaryStatistics [100, 100, 100]).annualizedVolatility = 0 := by
  have hr : dailyLogReturns [100, 100, 100] = [0, 0] := by
    unfold dailyLogReturns
    norm_num [List.zip]
  have hstd : sampleStd ([0, 0] : List ℝ) = 0 := by
    unfold sampleStd meanOf
    norm_num
  refine ⟨by rw [hr]; rfl, by rw [hr]; exact hstd, ?_⟩
  simp only [calculateSummaryStatistics, hr, hstd]
  norm_num

/-- The TS `Option` record produced by the chain generator.  The TS `id`
string `"{strike}-{maturity}-{type}"` is embedded as its determining
triple `(strike, maturity, type)`. -/
structure Opt where
  id : ℝ × ℕ × OptionType
  strike : ℝ
  maturity : ℕ
  type : OptionType
  bsmPrice : ℝ
  iv : ℝ
  greeks : Greeks
  d1 : EReal
  d2 : EReal
  bsmPriceHistVol : ℝ
  greeksHistVol : Greeks

/-- `strikeMultipliers = [0.95, 0.98, 1, 1.02, 1.05]`. -/
def strikeMultipliers : List ℝ := [0.95, 0.98, 1, 1.02, 1.05]

/-- The merged strike ladder
`[...new Set([...generatedStrikes, ...existingStrikes])].sort((a,b)=>a-b)`.
`List.dedup` keeps the last occurrence of a duplicate where the JS `Set`
keeps the first, but after the ascending sort of a duplicate-free list
both produce the same list. -/
def mergedStrikes (currentPrice : ℝ) (existingStrikes : List ℝ) : List ℝ :=
  (((strikeMultipliers.map fun m => ((jsRound (currentPrice * m) : ℤ) : ℝ))
      ++ existingStrikes).dedup).insertionSort (· ≤ ·)

/-- One option of the generated chain: moneyness `ln(strike/spot)`,
smile IV `histVol·(1 + 0.2·moneyness² − 0.1·moneyness)`, priced by
`bsm` at `T = maturity/252` both at the smile IV and at the historical
volatility. -/
def mkChainOption (currentPrice histVolatility riskFreeRate : ℝ) (maturity : ℕ)
    (strike : ℝ) (ty : OptionType) : Opt :=
  let moneyness := Real.log (strike / currentPrice)
  let iv := histVolatility * (1 + 0.2 * moneyness ^ 2 - 0.1 * moneyness)
  let T := (maturity : ℝ) / 252
  let resIV := bsm currentPrice strike T iv (riskFreeRate / 100) ty
  let resHV := bsm currentPrice strike T histVolatility (riskFreeRate / 100) ty
  { id := (strike, maturity, ty)
    strike := strike
    maturity := maturity
    type := ty
    bsmPrice := resIV.price
    iv := iv
    greeks := resIV.greeks
    d1 := resIV.d1
    d2 := resIV.d2
    bsmPriceHistVol := resHV.price
    greeksHistVol := resHV.greeks }

/-- The per-maturity row of the chain: for each strike of the merged
ladder, push a Call and a Put. -/
def chainRow (currentPrice histVolatility riskFreeRate : ℝ) (existingStrikes : List ℝ)
    (maturity : ℕ) : List Opt :=
  (mergedStrikes currentPrice existingStrikes).flatMap fun strike =>
    [OptionType.Call, OptionType.Put].map
      (mkChainOption currentPrice histVolatility riskFreeRate maturity strike)

/-- `FinancialService.generateOptionChain`: the chain object keyed by
maturity, embedded as an association list in the JS numeric-ascending
key order `[30, 60, 90]`. -/
def generateOptionChain (currentPrice histVolatility riskFreeRate : ℝ)
    (existingStrikes : List ℝ) : List (ℕ × List Opt) :=
  [30, 60, 90].map fun maturity =>
    (maturity, chainRow currentPrice histVolatility riskFreeRate existingStrikes maturity)

lemma mergedStrikes_nodup (P : ℝ) (ex : List ℝ) : (mergedStrikes P ex).Nodup :=
  ((List.perm_insertionSort _ _).nodup_iff).mpr (List.nodup_dedup _)

lemma mem_mergedStrikes_of_existing (P : ℝ) (ex : List ℝ) {s : ℝ} (hs : s ∈ ex) :
    s ∈ mergedStrikes P ex :=
  (List.mem_insertionSort _).mpr (List.mem_dedup.mpr (List.mem_append_right _ hs))

lemma length_filter_flatMap {α β : Type} (l : List α) (f : α → List β) (p : β → Bool) :
    ((l.flatMap f).filter p).length = (l.map fun a => ((f a).filter p).length).sum := by
  induction l with
  | nil => rfl
  | cons a l ih => simp [List.filter_append, ih]

lemma sum_indicator_count (l : List ℝ) (s : ℝ) :
    (l.map fun x => if x = s then 1 else 0).sum = l.count s := by
  induction l with
  | nil => rfl
  | cons a l ih =>
    simp only [List.map_cons, List.sum_cons, ih, List.count_cons, beq_iff_eq]
    by_cases h : a = s <;> simp [h] <;> omega

lemma chainRow_count (P hv rr : ℝ) (ex : List ℝ) (m : ℕ) (s : ℝ) (ty : OptionType)
    (hs : s ∈ mergedStrikes P ex) :
    ((chainRow P hv rr ex m).filter fun o => decide (o.strike = s ∧ o.type = ty)).length
      = 1 := by
  unfold chainRow
  rw [length_filter_flatMap]
  have hpt : ∀ x : ℝ,
      ((([OptionType.Call, OptionType.Put].map (mkChainOption P hv rr m x)).filter
        fun o => decide (o.strike = s ∧ o.type = ty)).length)
        = if x = s then 1 else 0 := by
    intro x
    cases ty <;> by_cases hxs : x = s <;> simp [mkChainOption, hxs]
  calc ((mergedStrikes P ex).map fun x =>
          ((([OptionType.Call, OptionType.Put].map (mkChainOption P hv rr m x)).filter
            fun o => decide (o.strike = s ∧ o.type = ty)).length)).sum
      = ((mergedStrikes P ex).map fun x => if x = s then 1 else 0).sum := by
        exact congrArg List.sum (List.map_congr_left fun x _ => hpt x)
    _ = (mergedStrikes P ex).count s := sum_indicator_count _ _
    _ = 1 := List.count_eq_one_of_mem (mergedStrikes_nodup P ex) hs

lemma chainRow_mem (P hv rr : ℝ) (ex : List ℝ) (m : ℕ) {o : Opt}
    (ho : o ∈ chainRow P hv rr ex m) :
    ∃ s ∈ mergedStrikes P ex, ∃ ty, o = mkChainOption P hv rr m s ty := by
  unfold chainRow at ho
  rw [List.mem_flatMap] at ho
  obtain ⟨s, hs, ho⟩ := ho
  simp only [List.map_cons, List.map_nil, List.mem_cons, List.not_mem_nil, or_false] at ho
  rcases ho with h | h
  · exact ⟨s, hs, OptionType.Call, h⟩
  · exact ⟨s, hs, OptionType.Put, h⟩

lemma mkChainOption_atm_iv (P hv rr : ℝ) (m : ℕ) (ty : OptionType) (hP : 0 < P) :
    (mkChainOption P hv rr m P ty).iv = hv := by
  unfold mkChainOption
  simp only
  rw [div_self (ne_of_gt hP), Real.log_one]
  ring

/-- C6: for `currentPrice > 0`, the generated chain has maturity keys
exactly `[30, 60, 90]`; every existing strike joins the merged ladder;
each maturity row holds exactly one Call and one Put per ladder strike
and no option outside the ladder; and every option struck exactly at
the spot (moneyness 0) carries `iv = histVolatility`. -/
theorem generateOptionChain_structure (P hv rr : ℝ) (ex : List ℝ) (hP : 0 < P) :
    (generateOptionChain P hv rr ex).map Prod.fst = [30, 60, 90] ∧
    (∀ s ∈ ex, s ∈ mergedStrikes P ex) ∧
    (∀ pr ∈ generateOptionChain P hv rr ex, ∀ s ∈ mergedStrikes P ex,
      ((pr.2.filter fun o => decide (o.strike = s ∧ o.type = OptionType.Call)).length = 1 ∧
        (pr.2.filter fun o => decide (o.strike = s ∧ o.type = OptionType.Put)).length = 1)) ∧
    (∀ pr ∈ generateOptionChain P hv rr ex, ∀ o ∈ pr.2, o.strike ∈ mergedStrikes P ex) ∧
    (∀ pr ∈ generateOptionChain P hv rr ex, ∀ o ∈ pr.2, o.strike = P → o.iv = hv) := by
  refine ⟨by simp [generateOptionChain], fun s hs => mem_mergedStrikes_of_existing P ex hs,
    ?_, ?_, ?_⟩
  · intro pr hpr s hs
    rw [generateOptionChain, List.mem_map] at hpr
    obtain ⟨m, _, rfl⟩ := hpr
    exact ⟨chainRow_count P hv rr ex m s OptionType.Call hs,
      chainRow_count P hv rr ex m s OptionType.Put hs⟩
  · intro pr hpr o ho
    rw [generateOptionChain, List.mem_map] at hpr
    obtain ⟨m, _, rfl⟩ := hpr
    obtain ⟨s, hs, ty, rfl⟩ := chainRow_mem P hv rr ex m ho
    exact hs
  · intro pr hpr o ho hstrike
    rw [generateOptionChain, List.mem_map] at hpr
    obtain ⟨m, _, rfl⟩ := hpr
    obtain ⟨s, hs, ty, rfl⟩ := chainRow_mem P hv rr ex m ho
    have hsP : s = P := hstrike
    subst hsP
    exact mkChainOption_atm_iv s hv rr m ty hP

theorem generateOptionChain_structure_witness :
    (0 : ℝ) < 100 ∧
    ((generateOptionChain 100 0.2 7 [125]).map Prod.fst = [30, 60, 90] ∧
    (∀ s ∈ [(125 : ℝ)], s ∈ mergedStrikes 100 [125]) ∧
    (∀ pr ∈ generateOptionChain 100 0.2 7 [125], ∀ s ∈ mergedStrikes 100 [125],
      ((pr.2.filter fun o => decide (o.strike = s ∧ o.type = OptionType.Call)).length = 1 ∧
        (pr.2.filter fun o => decide (o.strike = s ∧ o.type = OptionType.Put)).length = 1)) ∧
    (∀ pr ∈ generateOptionChain 100 0.2 7 [125], ∀ o ∈ pr.2,
      o.strike ∈ mergedStrikes 100 [125]) ∧
    (∀ pr ∈ generateOptionChain 100 0.2 7 [125], ∀ o ∈ pr.2, o.strike = 100 → o.iv = 0.2)) :=
  ⟨by norm_num, generateOptionChain_structure 100 0.2 7 [125] (by norm_num)⟩

/-- The TS `PortfolioPosition`: an option reference and a signed
quantity. -/
structure PortfolioPosition where
  option : Opt
  quantity : ℝ

/-- The numeric part of the TS `Config` record (`startDate`/`endDate`
play no role in any modeled computation). -/
structure Config where
  riskFreeRate : ℝ
  lotSize : ℝ

/-- The TS `VaRResult` record. -/
structure VaRResult where
  parametric95 : ℝ
  parametric99 : ℝ
  historical95 : ℝ
  historical99 : ℝ

/-- `FinancialService.calculatePortfolioGreeks`: the quantity-weighted
`reduce` over the portfolio starting from the all-zero accumulator. -/
def calculatePortfolioGreeks (portfolio : List PortfolioPosition) : Greeks :=
  portfolio.foldl
    (fun acc pos =>
      { delta := acc.delta + pos.quantity * pos.option.greeks.delta
        gamma := acc.gamma + pos.quantity * pos.option.greeks.gamma
        vega := acc.vega + pos.quantity * pos.option.greeks.vega
        theta := acc.theta + pos.quantity * pos.option.greeks.theta
        rho := acc.rho + pos.quantity * pos.option.greeks.rho })
    { delta := 0, gamma := 0, vega := 0, theta := 0, rho := 0 }

/-- The repriced portfolio-value series of `calculatePortfolioVaR`:
for each historical spot, the `reduce` of
`quantity · bsm(S_t, strike, maturity/252, iv, r/100, type).price · lotSize`. -/
def pvSeries (portfolio : List PortfolioPosition) (stockPrices : List ℝ)
    (config : Config) : List ℝ :=
  stockPrices.map fun S_t =>
    portfolio.foldl
      (fun totalValue pos =>
        totalValue + pos.quantity
          * (bsm S_t pos.option.strike ((pos.option.maturity : ℝ) / 252) pos.option.iv
              (config.riskFreeRate / 100) pos.option.type).price
          * config.lotSize)
      0

/-- The simple returns `(V[t] − V[t−1]) / V[t−1]` of the value series
with non-finite entries dropped: in JS the result is non-finite exactly
when the base `V[t−1]` is `0`, so the embedding filters those pairs. -/
def pvReturns (portfolio : List PortfolioPosition) (stockPrices : List ℝ)
    (config : Config) : List ℝ :=
  let pv := pvSeries portfolio stockPrices config
  (pv.tail.zip pv).filterMap fun pr =>
    if pr.2 ≠ 0 then some ((pr.1 - pr.2) / pr.2) else none

/-- `FinancialService.calculatePortfolioVaR`.  The in-place ascending
`sort` before the historical quantile lookups is embedded as
`insertionSort`; the parametric figures are computed from the unsorted
returns, whose mean and standard deviation are permutation-invariant
anyway. -/
def calculatePortfolioVaR (portfolio : List PortfolioPosition) (stockPrices : List ℝ)
    (config : Config) : VaRResult :=
  if portfolio.length = 0 ∨ stockPrices.length < 2 then
    { parametric95 := 0, parametric99 := 0, historical95 := 0, historical99 := 0 }
  else
    let pv := pvSeries portfolio stockPrices config
    let rs := pvReturns portfolio stockPrices config
    if rs.length < 2 then
      { parametric95 := 0, parametric99 := 0, historical95 := 0, historical99 := 0 }
    else
      let lastPortfolioValue := pv.getD (pv.length - 1) 0
      let returnsMean := meanOf rs
      let returnsStd := sampleStd rs
      let parametric95 := -(returnsMean + normCdf 0.05 * returnsStd) * lastPortfolioValue
      let parametric99 := -(returnsMean + normCdf 0.01 * returnsStd) * lastPortfolioValue
      let sorted := rs.insertionSort (· ≤ ·)
      let historical95 :=
        -(sorted.getD (Nat.floor (0.05 * (rs.length : ℝ))) 0) * lastPortfolioValue
      let historical99 :=
        -(sorted.getD (Nat.floor (0.01 * (rs.length : ℝ))) 0) * lastPortfolioValue
      { parametric95 := parametric95, parametric99 := parametric99
        historical95 := historical95, historical99 := historical99 }

/-- C3: given a non-empty portfolio, at least 2 prices and at least 2
valid portfolio-value returns, the parametric VaR figures are
`−(mean + normCdf(c)·sampleStd)·V_last` with `c = 0.05`/`0.01` — the
erf-approximation CDF, not an inverse normal — and `V_last` the last
element of the repriced value series. -/
theorem calculatePortfolioVaR_parametric (portfolio : List PortfolioPosition)
    (stockPrices : List ℝ) (config : Config)
    (h1 : portfolio ≠ []) (h2 : 2 ≤ stockPrices.length)
    (h3 : 2 ≤ (pvReturns portfolio stockPrices config).length) :
    (calculatePortfolioVaR portfolio stockPrices config).parametric95
        = -(meanOf (pvReturns portfolio stockPrices config)
            + normCdf 0.05 * sampleStd (pvReturns portfolio stockPrices config))
          * ((pvSeries portfolio stockPrices config).getD
              ((pvSeries portfolio stockPrices config).length - 1) 0) ∧
    (calculatePortfolioVaR portfolio stockPrices config).parametric99
        = -(meanOf (pvReturns portfolio stockPrices config)
            + normCdf 0.01 * sampleStd (pvReturns portfolio stockPrices config))
          * ((pvSeries portfolio stockPrices config).getD
              ((pvSeries portfolio stockPrices config).length - 1) 0) := by
  have hc1 : ¬(portfolio.length = 0 ∨ stockPrices.length < 2) := by
    push_neg
    exact ⟨fun h => h1 (List.length_eq_zero.mp h), by omega⟩
  have hc2 : ¬((pvReturns portfolio stockPrices config).length < 2) := by omega
  unfold calculatePortfolioVaR
  rw [if_neg hc1]
  simp only
  rw [if_neg hc2]
  exact ⟨rfl, rfl⟩

/-- A concrete deep-in-the-money Call with `iv = 0`, so `bsm` prices it
on the degenerate branch (`σ ≤ 0`): at spot `S` it is worth
`max (0, S − 50)`.  Options with `iv = 0` arise from the actual chain
generator whenever the historical volatility is `0` (e.g. a constant
price series). -/
def testOption : Opt :=
  { id := (50, 30, OptionType.Call)
    strike := 50
    maturity := 30
    type := OptionType.Call
    bsmPrice := 0
    iv := 0
    greeks := { delta := 0, gamma := 0, vega := 0, theta := 0, rho := 0 }
    d1 := ⊤
    d2 := ⊤
    bsmPriceHistVol := 0
    greeksHistVol := { delta := 0, gamma := 0, vega := 0, theta := 0, rho := 0 } }

/-- A one-position long portfolio holding `testOption`. -/
def testPortfolio : List PortfolioPosition := [{ option := testOption, quantity := 1 }]

/-- Concrete config: risk-free rate 0 %, lot size 1. -/
def testConfig : Config := { riskFreeRate := 0, lotSize := 1 }

/-- A strictly rising price series. -/
def testPrices : List ℝ := [100, 200, 300]

lemma testPvSeries : pvSeries testPortfolio testPrices testConfig = [50, 150, 250] := by
  have hb : ∀ S : ℝ,
      (bsm S 50 (((30 : ℕ) : ℝ) / 252) 0 (0 / 100) OptionType.Call).price
        = max 0 (S - 50) := by
    intro S
    rw [bsm_degen S 50 (((30 : ℕ) : ℝ) / 252) 0 (0 / 100) OptionType.Call
      (Or.inr le_rfl)]
    simp
  unfold pvSeries testPortfolio testPrices testConfig testOption
  simp only [List.map_cons, List.map_nil, List.foldl_cons, List.foldl_nil, hb]
  norm_num [max_eq_right]

lemma testPvReturns : pvReturns testPortfolio testPrices testConfig = [2, 2 / 3] := by
  unfold pvReturns
  rw [testPvSeries]
  norm_num [List.filterMap]

theorem calculatePortfolioVaR_parametric_witness :
    (testPortfolio ≠ [] ∧ 2 ≤ testPrices.length
      ∧ 2 ≤ (pvReturns testPortfolio testPrices testConfig).length) ∧
    ((calculatePortfolioVaR testPortfolio testPrices testConfig).parametric95
        = -(meanOf (pvReturns testPortfolio testPrices testConfig)
            + normCdf 0.05 * sampleStd (pvReturns testPortfolio testPrices testConfig))
          * ((pvSeries testPortfolio testPrices testConfig).getD
              ((pvSeries testPortfolio testPrices testConfig).length - 1) 0) ∧
      (calculatePortfolioVaR testPortfolio testPrices testConfig).parametric99
        = -(meanOf (pvReturns testPortfolio testPrices testConfig)
            + normCdf 0.01 * sampleStd (pvReturns testPortfolio testPrices testConfig))
          * ((pvSeries testPortfolio testPrices testConfig).getD
              ((pvSeries testPortfolio testPrices testConfig).length - 1) 0)) := by
  have h1 : testPortfolio ≠ [] := by simp [testPortfolio]
  have h2 : 2 ≤ testPrices.length := by simp [testPrices]
  have h3 : 2 ≤ (pvReturns testPortfolio testPrices testConfig).length := by
    rw [testPvReturns]
    simp
  exact ⟨⟨h1, h2, h3⟩,
    calculatePortfolioVaR_parametric testPortfolio testPrices testConfig h1 h2 h3⟩

/-- C4 (counterexample): on the strictly rising series all
portfolio-value returns are positive, and `historical95` comes out as
`−(2/3)·250 < 0` — the claimed non-negativity of all `VaRResult`
fields fails. -/
theorem varResult_negative_counterexample :
    (calculatePortfolioVaR testPortfolio testPrices testConfig).historical95 < 0 := by
  have hc1 : ¬(testPortfolio.length = 0 ∨ testPrices.length < 2) := by
    simp [testPortfolio, testPrices]
  have hc2 : ¬((pvReturns testPortfolio testPrices testConfig).length < 2) := by
    rw [testPvReturns]
    simp
  unfold calculatePortfolioVaR
  rw [if_neg hc1]
  simp only
  rw [if_neg hc2, testPvReturns, testPvSeries]
  have hsorted : (([2, 2 / 3] : List ℝ).insertionSort (· ≤ ·)) = [2 / 3, 2] := by
    simp [List.insertionSort, List.orderedInsert]
    norm_num
  have hfloor : Nat.floor ((0.05 : ℝ) * (([2, 2 / 3] : List ℝ).length : ℝ)) = 0 := by
    rw [Nat.floor_eq_zero]
    norm_num
  rw [hsorted, hfloor]
  norm_num

/-- C4 (amended): in the degenerate cases — empty portfolio, fewer than
2 prices, or fewer than 2 valid portfolio-value returns — all four
`VaRResult` fields are `0`, hence non-negative; outside those cases the
fields follow the VaR formulas and can be negative. -/
theorem varResult_degenerate_zero (portfolio : List PortfolioPosition)
    (stockPrices : List ℝ) (config : Config)
    (h : portfolio = [] ∨ stockPrices.length < 2
      ∨ (pvReturns portfolio stockPrices config).length < 2) :
    calculatePortfolioVaR portfolio stockPrices config =
      { parametric95 := 0, parametric99 := 0, historical95 := 0, historical99 := 0 } := by
  unfold calculatePortfolioVaR
  rcases h with h | h | h
  · rw [if_pos (Or.inl (by simp [h]))]
  · rw [if_pos (Or.inr h)]
  · by_cases hc1 : portfolio.length = 0 ∨ stockPrices.length < 2
    · rw [if_pos hc1]
    · rw [if_neg hc1]
      simp only
      rw [if_pos h]

theorem varResult_degenerate_zero_witness :
    (([] : List PortfolioPosition) = [] ∨ ([] : List ℝ).length < 2
      ∨ (pvReturns [] [] testConfig).length < 2) ∧
    calculatePortfolioVaR [] [] testConfig =
      { parametric95 := 0, parametric99 := 0, historical95 := 0, historical99 := 0 } :=
  ⟨Or.inl rfl, varResult_degenerate_zero [] [] testConfig (Or.inl rfl)⟩

/-- The `'Buy' | 'Sell'` action strings of `GammaHedgeSuggestion`. -/
inductive TradeAction where
  | Buy
  | Sell
  deriving DecidableEq

/-- The TS `GammaHedgeSuggestion` (the `message` field, a formatted
rendering of the other three fields, is omitted). -/
structure GammaHedgeSuggestion where
  action : TradeAction
  quantity : ℤ
  option : Opt

/-- `FinancialService.hedgePortfolio`: the delta-neutralizing stock
quantity `−portfolio delta · lotSize` (the TS wraps it in an object
`{deltaHedgeShares}`). -/
def hedgePortfolio (portfolio : List PortfolioPosition) (lotSize : ℝ) : ℝ :=
  -(calculatePortfolioGreeks portfolio).delta * lotSize

/-- `Object.values(optionChain).flat()` in ascending numeric key
order. -/
def allChainOptions (chain : List (ℕ × List Opt)) : List Opt :=
  (chain.map Prod.snd).flatten

/-- The ascending order on `|gamma|` induced by the JS comparator
`(a, b) => Math.abs(a.greeks.gamma) - Math.abs(b.greeks.gamma)`. -/
def absGammaLE (a b : Opt) : Prop := |a.greeks.gamma| ≤ |b.greeks.gamma|

instance : DecidableRel absGammaLE := fun a b =>
  inferInstanceAs (Decidable (|a.greeks.gamma| ≤ |b.greeks.gamma|))

instance : IsTotal Opt absGammaLE := ⟨fun a b => le_total _ _⟩

instance : IsTrans Opt absGammaLE := ⟨fun _ _ _ hab hbc => le_trans hab hbc⟩

/-- `FinancialService.calculateGammaHedge`: null for an empty or
gamma-neutral portfolio; otherwise stable-sort the maturity-30 chain
options ascending by `|gamma|` and `pop()` the last one. -/
def calculateGammaHedge (portfolio : List PortfolioPosition)
    (chain : List (ℕ × List Opt)) : Option GammaHedgeSuggestion :=
  if portfolio.length = 0 then none
  else
    let portfolioGamma := (calculatePortfolioGreeks portfolio).gamma
    if |portfolioGamma| < 1e-6 then none
    else
      let candidates := (allChainOptions chain).filter fun o => o.maturity == 30
      match (candidates.insertionSort absGammaLE).getLast? with
      | none => none
      | some atmOption =>
        let quantity := -portfolioGamma / atmOption.greeks.gamma
        let action := if quantity > 0 then TradeAction.Buy else TradeAction.Sell
        some { action := action, quantity := |jsRound quantity|, option := atmOption }

lemma orderedInsert_ne_nil (a : Opt) (l : List Opt) :
    List.orderedInsert absGammaLE a l ≠ [] := by
  cases l with
  | nil => simp [List.orderedInsert]
  | cons b t =>
    show (if absGammaLE a b then a :: b :: t
      else b :: List.orderedInsert absGammaLE a t) ≠ []
    split <;> simp

lemma getLast?_cons_ne {α : Type} (b : α) (L : List α) (h : L ≠ []) :
    (b :: L).getLast? = L.getLast? := by
  cases L with
  | nil => exact absurd rfl h
  | cons c t => exact List.getLast?_cons_cons

lemma orderedInsert_getLast? (a : Opt) :
    ∀ l : List Opt, l.Sorted absGammaLE → ∀ m, l.getLast? = some m →
      (List.orderedInsert absGammaLE a l).getLast? =
        some (if absGammaLE a m then m else a) := by
  intro l
  induction l with
  | nil => intro _ m hm; cases hm
  | cons b t ih =>
    intro hl m hm
    cases t with
    | nil =>
      have hmb : m = b := by simpa using hm.symm
      subst hmb
      show (if absGammaLE a m then a :: m :: ([] : List Opt)
        else m :: List.orderedInsert absGammaLE a []).getLast? = _
      by_cases hab : absGammaLE a m
      · rw [if_pos hab, if_pos hab]
        simp
      · rw [if_neg hab, if_neg hab]
        simp [List.orderedInsert]
    | cons c t' =>
      have hm' : (c :: t').getLast? = some m := by
        rwa [List.getLast?_cons_cons] at hm
      have hbt : ∀ y ∈ c :: t', absGammaLE b y := List.rel_of_sorted_cons hl
      have ht : (c :: t').Sorted absGammaLE := hl.of_cons
      have hmm : m ∈ c :: t' := by
        obtain ⟨hne, hx⟩ := List.mem_getLast?_eq_getLast (show m ∈ (c :: t').getLast? from hm')
        rw [hx]
        exact List.getLast_mem hne
      show (if absGammaLE a b then a :: b :: c :: t'
        else b :: List.orderedInsert absGammaLE a (c :: t')).getLast? = _
      by_cases hab : absGammaLE a b
      · rw [if_pos hab, if_pos (show absGammaLE a m from le_trans hab (hbt m hmm)),
          List.getLast?_cons_cons, List.getLast?_cons_cons]
        exact hm'
      · rw [if_neg hab, getLast?_cons_ne b _ (orderedInsert_ne_nil a (c :: t'))]
        exact ih ht m hm'

lemma sorted_all_le_getLast :
    ∀ l : List Opt, l.Sorted absGammaLE → ∀ x, l.getLast? = some x →
      ∀ y ∈ l, absGammaLE y x := by
  intro l
  induction l with
  | nil => intro _ x hx; cases hx
  | cons b t ih =>
    intro hl x hx y hy
    cases t with
    | nil =>
      have hxb : x = b := by simpa using hx.symm
      have hyb : y = b := by simpa using hy
      subst hxb
      subst hyb
      exact le_refl _
    | cons c t' =>
      have hx' : (c :: t').getLast? = some x := by
        rwa [List.getLast?_cons_cons] at hx
      have hxm : x ∈ c :: t' := by
        obtain ⟨hne, he⟩ := List.mem_getLast?_eq_getLast (show x ∈ (c :: t').getLast? from hx')
        rw [he]
        exact List.getLast_mem hne
      rcases List.mem_cons.mp hy with rfl | hy'
      · exact List.rel_of_sorted_cons hl x hxm
      · exact ih hl.of_cons x hx' y hy'

/-- The last element of the stable ascending insertion sort is the last
maximum of the original list: everything after its (witnessing)
occurrence is strictly smaller in the sort key. -/
lemma insertionSort_getLast?_decomp :
    ∀ l : List Opt, ∀ x, (l.insertionSort absGammaLE).getLast? = some x →
      ∃ p q, l = p ++ x :: q ∧ ∀ y ∈ q, ¬absGammaLE x y := by
  intro l
  induction l with
  | nil => intro x hx; cases hx
  | cons a t ih =>
    intro x hx
    rw [show (a :: t).insertionSort absGammaLE
      = List.orderedInsert absGammaLE a (t.insertionSort absGammaLE) from rfl] at hx
    cases hst : (t.insertionSort absGammaLE).getLast? with
    | none =>
      have hsnil : t.insertionSort absGammaLE = [] := List.getLast?_eq_none_iff.mp hst
      have htnil : t = [] := by
        have hp := List.perm_insertionSort absGammaLE t
        rw [hsnil] at hp
        exact hp.symm.eq_nil
      subst htnil
      rw [hsnil] at hx
      have hxa : x = a := by simpa [List.orderedInsert] using hx.symm
      subst hxa
      exact ⟨[], [], rfl, by simp⟩
    | some m =>
      have hsorted : (t.insertionSort absGammaLE).Sorted absGammaLE :=
        List.sorted_insertionSort absGammaLE t
      rw [orderedInsert_getLast? a _ hsorted m hst] at hx
      have hx' : (if absGammaLE a m then m else a) = x := by
        injection hx
      by_cases ham : absGammaLE a m
      · rw [if_pos ham] at hx'
        subst hx'
        obtain ⟨p, q, rfl, hq⟩ := ih m hst
        exact ⟨a :: p, q, rfl, hq⟩
      · rw [if_neg ham] at hx'
        subst hx'
        refine ⟨[], t, rfl, fun y hy hay => ?_⟩
        have hym : absGammaLE y m :=
          sorted_all_le_getLast _ hsorted m hst y ((List.mem_insertionSort _).mpr hy)
        exact ham (le_trans hay hym)

/-- C7: `calculateGammaHedge` returns null exactly for an empty
portfolio, `|portfolio gamma| < 1e-6`, or an empty maturity-30
candidate list; a returned suggestion holds a maturity-30 option of
maximal `|gamma|` whose occurrence is the LAST maximum in iteration
order (stable ascending sort + pop), with
`quantity = |round(−portfolioGamma / chosen.gamma)|` and action Buy
exactly when the unrounded signed quantity is positive. -/
theorem calculateGammaHedge_contract (portfolio : List PortfolioPosition)
    (chain : List (ℕ × List Opt)) :
    (calculateGammaHedge portfolio chain = none ↔
      (portfolio = [] ∨ |(calculatePortfolioGreeks portfolio).gamma| < 1e-6 ∨
        (allChainOptions chain).filter (fun o => o.maturity == 30) = [])) ∧
    (∀ s, calculateGammaHedge portfolio chain = some s →
      (∃ p q, (allChainOptions chain).filter (fun o => o.maturity == 30)
          = p ++ s.option :: q ∧
          ∀ y ∈ q, |y.greeks.gamma| < |s.option.greeks.gamma|) ∧
      (∀ o ∈ (allChainOptions chain).filter (fun o => o.maturity == 30),
        |o.greeks.gamma| ≤ |s.option.greeks.gamma|) ∧
      s.quantity = |jsRound (-(calculatePortfolioGreeks portfolio).gamma
        / s.option.greeks.gamma)| ∧
      s.action = (if -(calculatePortfolioGreeks portfolio).gamma
          / s.option.greeks.gamma > 0 then TradeAction.Buy else TradeAction.Sell)) := by
  by_cases h0 : portfolio.length = 0
  · have hres : calculateGammaHedge portfolio chain = none := by
      unfold calculateGammaHedge
      rw [if_pos h0]
    refine ⟨?_, ?_⟩
    · rw [hres]
      simp [List.length_eq_zero.mp h0]
    · intro s hs
      rw [hres] at hs
      cases hs
  · by_cases h1 : |(calculatePortfolioGreeks portfolio).gamma| < 1e-6
    · have hres : calculateGammaHedge portfolio chain = none := by
        unfold calculateGammaHedge
        rw [if_neg h0]
        rw [if_pos h1]
      refine ⟨?_, ?_⟩
      · rw [hres]
        simp [h1]
      · intro s hs
        rw [hres] at hs
        cases hs
    · cases hlast : (((allChainOptions chain).filter
          fun o => o.maturity == 30).insertionSort absGammaLE).getLast? with
      | none =>
        have hcand : (allChainOptions chain).filter (fun o => o.maturity == 30) = [] := by
          have hp := List.perm_insertionSort absGammaLE
            ((allChainOptions chain).filter fun o => o.maturity == 30)
          rw [List.getLast?_eq_none_iff.mp hlast] at hp
          exact hp.symm.eq_nil
        have hres : calculateGammaHedge portfolio chain = none := by
          unfold calculateGammaHedge
          rw [if_neg h0]
          rw [if_neg h1]
          simp only [hlast]
        refine ⟨?_, ?_⟩
        · rw [hres]
          simp [hcand]
        · intro s hs
          rw [hres] at hs
          cases hs
      | some atm =>
        have hres : calculateGammaHedge portfolio chain =
            some { action := if -(calculatePortfolioGreeks portfolio).gamma
                      / atm.greeks.gamma > 0 then TradeAction.Buy else TradeAction.Sell
                   quantity := |jsRound (-(calculatePortfolioGreeks portfolio).gamma
                      / atm.greeks.gamma)|
                   option := atm } := by
          unfold calculateGammaHedge
          rw [if_neg h0]
          rw [if_neg h1]
          simp only [hlast]
        refine ⟨?_, ?_⟩
        · rw [hres]
          constructor
          · intro h
            cases h
          · intro h
            rcases h with h | h | h
            · exact absurd (by rw [h]; rfl : portfolio.length = 0) h0
            · exact absurd h h1
            · rw [h] at hlast
              simp at hlast
        · intro s hs
          rw [hres] at hs
          have hseq := Option.some.inj hs
          subst hseq
          obtain ⟨p, q, hdecomp, hq⟩ := insertionSort_getLast?_decomp _ atm hlast
          refine ⟨⟨p, q, hdecomp, fun y hy => not_le.mp (hq y hy)⟩, ?_, rfl, rfl⟩
          intro o ho
          exact sorted_all_le_getLast _ (List.sorted_insertionSort absGammaLE _) atm hlast o
            ((List.mem_insertionSort _).mpr ho)

/-- C10: if no chain option has maturity 30, `calculateGammaHedge`
returns null for every portfolio, including non-empty ones with
`|gamma| ≥ 1e-6`. -/
theorem calculateGammaHedge_no_candidate (portfolio : List PortfolioPosition)
    (chain : List (ℕ × List Opt))
    (h : ∀ o ∈ allChainOptions chain, o.maturity ≠ 30) :
    calculateGammaHedge portfolio chain = none := by
  have hf : ((allChainOptions chain).filter fun o => o.maturity == 30) = [] := by
    rw [List.filter_eq_nil_iff]
    intro o ho
    simpa using h o ho
  unfold calculateGammaHedge
  by_cases h0 : portfolio.length = 0
  · rw [if_pos h0]
  · rw [if_neg h0]
    by_cases h1 : |(calculatePortfolioGreeks portfolio).gamma| < 1e-6
    · rw [if_pos h1]
    · rw [if_neg h1]
      rw [hf]
      rfl

/-- A unit-gamma option used to build a portfolio with portfolio gamma
exactly 1. -/
def testGammaOption : Opt :=
  { id := (100, 60, OptionType.Call)
    strike := 100
    maturity := 60
    type := OptionType.Call
    bsmPrice := 0
    iv := 0
    greeks := { delta := 0, gamma := 1, vega := 0, theta := 0, rho := 0 }
    d1 := ⊤
    d2 := ⊤
    bsmPriceHistVol := 0
    greeksHistVol := { delta := 0, gamma := 0, vega := 0, theta := 0, rho := 0 } }

/-- A one-position portfolio with portfolio gamma 1. -/
def testGammaPortfolio : List PortfolioPosition :=
  [{ option := testGammaOption, quantity := 1 }]

lemma testGammaPortfolio_gamma : (calculatePortfolioGreeks testGammaPortfolio).gamma = 1 := by
  unfold calculatePortfolioGreeks testGammaPortfolio testGammaOption
  norm_num

theorem calculateGammaHedge_no_candidate_witness :
    (∀ o ∈ allChainOptions ([] : List (ℕ × List Opt)), o.maturity ≠ 30) ∧
    testGammaPortfolio ≠ [] ∧
    ¬(|(calculatePortfolioGreeks testGammaPortfolio).gamma| < 1e-6) ∧
    calculateGammaHedge testGammaPortfolio [] = none := by
  have hO : ∀ o ∈ allChainOptions ([] : List (ℕ × List Opt)), o.maturity ≠ 30 := by
    intro o ho
    simp [allChainOptions] at ho
  refine ⟨hO, by simp [testGammaPortfolio], ?_,
    calculateGammaHedge_no_candidate testGammaPortfolio [] hO⟩
  rw [testGammaPortfolio_gamma]
  norm_num

/-- A maturity-30 candidate option with gamma 2. -/
def hedgeChainOption : Opt :=
  { id := (100, 30, OptionType.Call)
    strike := 100
    maturity := 30
    type := OptionType.Call
    bsmPrice := 0
    iv := 0
    greeks := { delta := 0, gamma := 2, vega := 0, theta := 0, rho := 0 }
    d1 := ⊤
    d2 := ⊤
    bsmPriceHistVol := 0
    greeksHistVol := { delta := 0, gamma := 0, vega := 0, theta := 0, rho := 0 } }

/-- A chain holding exactly the one maturity-30 candidate. -/
def hedgeChain : List (ℕ × List Opt) := [(30, [hedgeChainOption])]

lemma hedge_eval : calculateGammaHedge testGammaPortfolio hedgeChain =
    some { action := TradeAction.Sell, quantity := 0, option := hedgeChainOption } := by
  unfold calculateGammaHedge
  rw [if_neg (show ¬(testGammaPortfolio.length = 0) by simp [testGammaPortfolio])]
  rw [testGammaPortfolio_gamma]
  rw [if_neg (show ¬(|(1 : ℝ)| < 1e-6) by norm_num)]
  have hf : ((allChainOptions hedgeChain).filter fun o => o.maturity == 30)
      = [hedgeChainOption] := rfl
  rw [hf]
  have hg : hedgeChainOption.greeks.gamma = 2 := rfl
  simp only [List.insertionSort, List.orderedInsert, List.getLast?_singleton, hg]
  norm_num [jsRound]

theorem calculateGammaHedge_contract_witness :
    calculateGammaHedge testGammaPortfolio hedgeChain =
      some { action := TradeAction.Sell, quantity := 0, option := hedgeChainOption } ∧
    ((∃ p q, (allChainOptions hedgeChain).filter (fun o => o.maturity == 30)
        = p ++ hedgeChainOption :: q ∧
        ∀ y ∈ q, |y.greeks.gamma| < |hedgeChainOption.greeks.gamma|) ∧
      (∀ o ∈ (allChainOptions hedgeChain).filter (fun o => o.maturity == 30),
        |o.greeks.gamma| ≤ |hedgeChainOption.greeks.gamma|) ∧
      (0 : ℤ) = |jsRound (-(calculatePortfolioGreeks testGammaPortfolio).gamma
        / hedgeChainOption.greeks.gamma)| ∧
      TradeAction.Sell = (if -(calculatePortfolioGreeks testGammaPortfolio).gamma
          / hedgeChainOption.greeks.gamma > 0
        then TradeAction.Buy else TradeAction.Sell)) :=
  ⟨hedge_eval, (calculateGammaHedge_contract testGammaPortfolio hedgeChain).2 _ hedge_eval⟩

/-- The TS `PnLScenario`.  The `scenario` label string
`"{(change*100).toFixed(0)}%"` is embedded as the shock value
`scenarioShock` itself. -/
structure PnLScenario where
  scenarioShock : ℝ
  pnlUnhedged : ℝ
  pnlDeltaHedged : ℝ

/-- `FinancialService.calculatePnLScenarios`: reprice each position at
the shocked spot (same iv, maturity, rate), diff against the stored
current mark, scale by the lot size, and add the delta-hedge leg
computed with `hedgePortfolio(portfolio, 1)`. -/
def calculatePnLScenarios (portfolio : List PortfolioPosition) (lastPrice : ℝ)
    (config : Config) : List PnLScenario :=
  let scenarios : List ℝ := [-0.02, -0.01, 0.0, 0.01, 0.02]
  let r := config.riskFreeRate / 100
  let currentValue := portfolio.foldl
    (fun sum pos => sum + pos.quantity * pos.option.bsmPrice) 0
  let deltaHedgeShares := hedgePortfolio portfolio 1
  scenarios.map fun change =>
    let newPrice := lastPrice * (1 + change)
    let newValue := portfolio.foldl
      (fun sum pos => sum + pos.quantity
        * (bsm newPrice pos.option.strike ((pos.option.maturity : ℝ) / 252) pos.option.iv r
            pos.option.type).price)
      0
    let pnlUnhedged := (newValue - currentValue) * config.lotSize
    { scenarioShock := change
      pnlUnhedged := pnlUnhedged
      pnlDeltaHedged := pnlUnhedged + deltaHedgeShares * (newPrice - lastPrice) }

lemma foldl_add_eq_sum {α : Type} (f : α → ℝ) (l : List α) (init : ℝ) :
    l.foldl (fun s x => s + f x) init = init + (l.map f).sum := by
  induction l generalizing init with
  | nil => simp
  | cons a t ih =>
    simp only [List.foldl_cons, List.map_cons, List.sum_cons, ih]
    ring

/-- C8: the scenario list is exactly the five shocks
`{−2%, −1%, 0%, +1%, +2%}` of the last price; for each shock the
unhedged P&L is `(Σ qty·bsm(shocked spot).price − Σ qty·stored mark)
· lotSize` and the delta-hedged P&L adds
`(−portfolio delta)·(newPrice − lastPrice)` (the hedge leg uses
`deltaHedgeShares` with `lotSize = 1`). -/
theorem calculatePnLScenarios_spec (portfolio : List PortfolioPosition)
    (lastPrice : ℝ) (config : Config) :
    calculatePnLScenarios portfolio lastPrice config =
      ([-0.02, -0.01, 0.0, 0.01, 0.02] : List ℝ).map fun change =>
        { scenarioShock := change
          pnlUnhedged :=
            ((portfolio.map fun pos => pos.quantity
                * (bsm (lastPrice * (1 + change)) pos.option.strike
                    ((pos.option.maturity : ℝ) / 252) pos.option.iv
                    (config.riskFreeRate / 100) pos.option.type).price).sum
              - (portfolio.map fun pos => pos.quantity * pos.option.bsmPrice).sum)
              * config.lotSize
          pnlDeltaHedged :=
            ((portfolio.map fun pos => pos.quantity
                * (bsm (lastPrice * (1 + change)) pos.option.strike
                    ((pos.option.maturity : ℝ) / 252) pos.option.iv
                    (config.riskFreeRate / 100) pos.option.type).price).sum
              - (portfolio.map fun pos => pos.quantity * pos.option.bsmPrice).sum)
              * config.lotSize
              + -(calculatePortfolioGreeks portfolio).delta
                * (lastPrice * (1 + change) - lastPrice) } := by
  unfold calculatePnLScenarios hedgePortfolio
  refine List.map_congr_left fun change _ => ?_
  simp only [foldl_add_eq_sum, zero_add, mul_one]
